import Mathlib

/-!
# Super I/O COPY-button poller (`src/hal/sio/sio.c`)

A small-step embedding of `main` from `sio.c`.  Every statement of the C
function is one control point; every library call (`ioperm`, `perror`,
`outb`, `inb`, `printf`, `usleep`) and the return from `main` is recorded as
an event in the I/O trace of the state.  The results the environment hands
back (the return value of each `ioperm` call, the byte delivered by each
`inb` call) are parameters of the model.
-/

namespace CopyButton

/-! ## Constants of the source -/

/-- The macro `BASEPORT`, `0xa05`: the index port of the Super I/O chip. -/
def BASEPORT : Nat := 0xa05

/-- The macro `NPORTS`, `2`: the number of ports of the requested range. -/
def NPORTS : Nat := 2

/-- The macro `COPY_BUTTON`, `0xe2`: the register index of the COPY button. -/
def COPY_BUTTON : Nat := 0xe2

/-- The macro `COPY_BUTTON_B`, `(1 << 2)`: the bit of the COPY button. -/
def COPY_BUTTON_B : Nat := 1 <<< 2

/-! ## Observable events -/

/-- One observable action of the process, with the arguments as the callee
receives them and, for calls whose result the program uses, the result. -/
inductive Event where
  /-- The call `ioperm(start, num, turn_on)` returned `ret`. -/
  | ioperm (start : Nat) (num : Nat) (turn_on : Int) (ret : Int)
  /-- The call `perror(s)`: a diagnostic naming the system error, on standard error. -/
  | perror (s : String)
  /-- The call `outb(value, port)`: `value` is an `unsigned char`, `port` an `unsigned short`. -/
  | outb (value : Nat) (port : Nat)
  /-- The call `inb(port)` returned the byte `ret`. -/
  | inb (port : Nat) (ret : Nat)
  /-- The call to `printf` wrote `out` to standard output. -/
  | printf (out : String)
  /-- The call `usleep(usec)`. -/
  | usleep (usec : Nat)
  /-- The function `main` returned `status`: the process exits with it. -/
  | exit (status : Int)
  deriving DecidableEq, Repr

/-- Control points of `main`, named after the source line of the statement
about to run. -/
inductive Pc where
  /-- line 19: `if (ioperm(BASEPORT, NPORTS, 1))` -/
  | L19_ioperm
  /-- line 19: `perror("ioperm");` -/
  | L19_perror
  /-- line 19: `return(1);` -/
  | L19_return
  /-- line 22: `outb(COPY_BUTTON, BASEPORT);` -/
  | L22_outb
  /-- line 23: `while (1)` -/
  | L23_while
  /-- line 24: `int value = inb(BASEPORT + 1) & COPY_BUTTON_B;` -/
  | L24_inb
  /-- line 25: `printf("COPY button: %s\n", value ? "released" : "pressed");` -/
  | L25_printf
  /-- line 26: `usleep(1000000);` -/
  | L26_usleep
  /-- line 28: `if (ioperm(BASEPORT, NPORTS, 0))` -/
  | L28_ioperm
  /-- line 28: `perror("ioperm");` -/
  | L28_perror
  /-- line 28: `return(1);` -/
  | L28_return
  /-- line 29: the closing brace of `main` (an implicit `return 0`). -/
  | L29_end
  /-- the process has exited with the given status. -/
  | exited (status : Int)
  deriving DecidableEq, Repr

/-- What the environment answers: the value returned by the `k`-th call of
`ioperm` and the value on the data port at the `k`-th call of `inb`
(counting from 0). -/
structure Env where
  ioperm_ret : Nat → Int
  inb_ret : Nat → Nat

/-- The state of the process. -/
structure State where
  /-- control point -/
  pc : Pc
  /-- the local variable `int value` of the loop body -/
  value : Int
  /-- number of `ioperm` calls made so far -/
  nperm : Nat
  /-- number of `inb` calls made so far -/
  nread : Nat
  /-- the I/O trace so far, oldest event first -/
  trace : List Event
  deriving DecidableEq, Repr

/-- The state on entry to `main`. -/
def init : State :=
  { pc := Pc.L19_ioperm, value := 0, nperm := 0, nread := 0, trace := [] }

/-- The byte `inb` hands back at the `k`-th read: `inb` returns an
`unsigned char`. -/
def inb (env : Env) (k : Nat) : Nat := env.inb_ret k % 2 ^ 8

/-- The expression `inb(BASEPORT + 1) & COPY_BUTTON_B` for a read byte `b`,
as an `int`. -/
def masked (b : Nat) : Int := ((b &&& COPY_BUTTON_B : Nat) : Int)

/-- The text of `printf("COPY button: %s\n", value ? "released" : "pressed")`. -/
def printf_out (value : Int) : String :=
  "COPY button: " ++ (if value ≠ 0 then "released" else "pressed") ++ "\n"

/-- One statement of `main`.  `none` when the process has exited. -/
def step (env : Env) (s : State) : Option State :=
  match s.pc with
  | Pc.L19_ioperm =>
      let r := env.ioperm_ret s.nperm
      some { s with
        pc := if r ≠ 0 then Pc.L19_perror else Pc.L22_outb
        nperm := s.nperm + 1
        trace := s.trace ++ [Event.ioperm (BASEPORT % 2 ^ 64) (NPORTS % 2 ^ 64) 1 r] }
  | Pc.L19_perror =>
      some { s with pc := Pc.L19_return, trace := s.trace ++ [Event.perror "ioperm"] }
  | Pc.L19_return =>
      some { s with pc := Pc.exited 1, trace := s.trace ++ [Event.exit 1] }
  | Pc.L22_outb =>
      some { s with
        pc := Pc.L23_while
        trace := s.trace ++ [Event.outb (COPY_BUTTON % 2 ^ 8) (BASEPORT % 2 ^ 16)] }
  | Pc.L23_while =>
      some { s with pc := if (1 : Int) ≠ 0 then Pc.L24_inb else Pc.L28_ioperm }
  | Pc.L24_inb =>
      let b := inb env s.nread
      some { s with
        pc := Pc.L25_printf
        value := masked b
        nread := s.nread + 1
        trace := s.trace ++ [Event.inb ((BASEPORT + 1) % 2 ^ 16) b] }
  | Pc.L25_printf =>
      some { s with pc := Pc.L26_usleep, trace := s.trace ++ [Event.printf (printf_out s.value)] }
  | Pc.L26_usleep =>
      some { s with pc := Pc.L23_while, trace := s.trace ++ [Event.usleep 1000000] }
  | Pc.L28_ioperm =>
      let r := env.ioperm_ret s.nperm
      some { s with
        pc := if r ≠ 0 then Pc.L28_perror else Pc.L29_end
        nperm := s.nperm + 1
        trace := s.trace ++ [Event.ioperm (BASEPORT % 2 ^ 64) (NPORTS % 2 ^ 64) 0 r] }
  | Pc.L28_perror =>
      some { s with pc := Pc.L28_return, trace := s.trace ++ [Event.perror "ioperm"] }
  | Pc.L28_return =>
      some { s with pc := Pc.exited 1, trace := s.trace ++ [Event.exit 1] }
  | Pc.L29_end =>
      some { s with pc := Pc.exited 0, trace := s.trace ++ [Event.exit 0] }
  | Pc.exited _ => none

/-- The state of `main` after `n` statements, `none` once the process has
exited before that. -/
def main (env : Env) : Nat → Option State
  | 0 => some init
  | n + 1 => (main env n).bind (step env)

/-- The step relation of the process in environment `env`. -/
def Step (env : Env) (s t : State) : Prop := step env s = some t

/-- States the process can be in, starting from the entry of `main`. -/
inductive Reachable (env : Env) : State → Prop where
  | start : Reachable env init
  | next {s t : State} : Reachable env s → Step env s t → Reachable env t

/-! ## Observations on a trace -/

/-- The byte a port read delivered, `none` for the other events. -/
def Event.byte? : Event → Option Nat
  | Event.inb _ b => some b
  | _ => none

/-- The text a write to standard output carried, `none` for the other events. -/
def Event.out? : Event → Option String
  | Event.printf o => some o
  | _ => none

/-- The bytes read from ports, in order. -/
def reads (tr : List Event) : List Nat := tr.filterMap Event.byte?

/-- The texts written to standard output, in order. -/
def outputs (tr : List Event) : List String := tr.filterMap Event.out?

/-- The event is a port write. -/
def Event.isWrite : Event → Bool
  | Event.outb _ _ => true
  | _ => false

/-- The event is a port read. -/
def Event.isRead : Event → Bool
  | Event.inb _ _ => true
  | _ => false

/-- The event is a permission request. -/
def Event.isIoperm : Event → Bool
  | Event.ioperm _ _ _ _ => true
  | _ => false

/-- The event is a write to standard output. -/
def Event.isPrintf : Event → Bool
  | Event.printf _ => true
  | _ => false

/-- The event is a sleep. -/
def Event.isSleep : Event → Bool
  | Event.usleep _ => true
  | _ => false

/-- The event is a process exit. -/
def Event.isExit : Event → Bool
  | Event.exit _ => true
  | _ => false

/-- The port address of a port access, `none` for the other events. -/
def Event.port? : Event → Option Nat
  | Event.outb _ p => some p
  | Event.inb p _ => some p
  | _ => none

/-- An environment in which every `ioperm` call returns `r` and every read
of the data port delivers `b`. -/
def constEnv (r : Int) (b : Nat) : Env := { ioperm_ret := fun _ => r, inb_ret := fun _ => b }

/-- The control point belongs to the polling part of `main`: the index
write of line 22 and the loop of lines 23 to 27. -/
def Pc.isPolling : Pc → Bool
  | Pc.L22_outb => true
  | Pc.L23_while => true
  | Pc.L24_inb => true
  | Pc.L25_printf => true
  | Pc.L26_usleep => true
  | _ => false

/-- What a trace of the granted run is waiting for next. -/
inductive Phase where
  /-- nothing has happened: the permission request comes next -/
  | start
  /-- the permission is granted: the index write comes next -/
  | granted
  /-- the loop is about to read the data port -/
  | idle
  /-- a byte has been read: the print comes next -/
  | read
  /-- the line has been printed: the sleep of one second comes next -/
  | printed
  deriving DecidableEq, Repr

/-- One move of the trace monitor; `none` rejects the trace. -/
def mon : Option Phase → Event → Option Phase
  | some Phase.start, Event.ioperm _ _ _ _ => some Phase.granted
  | some Phase.granted, Event.outb _ _ => some Phase.idle
  | some Phase.idle, Event.inb _ _ => some Phase.read
  | some Phase.read, Event.printf _ => some Phase.printed
  | some Phase.printed, Event.usleep u => if u = 1000000 then some Phase.idle else none
  | _, _ => none

/-! ## The shape of the reachable states -/

/-- The events of the `k`-th pass through the loop body (counting from 0). -/
def iter (env : Env) (k : Nat) : List Event :=
  [Event.inb 0xa06 (inb env k), Event.printf (printf_out (masked (inb env k))),
    Event.usleep 1000000]

/-- The events of the first `k` passes through the loop body. -/
def loopTrace (env : Env) : Nat → List Event
  | 0 => []
  | k + 1 => loopTrace env k ++ iter env k

/-- The events before the loop when the permission request succeeds. -/
def prologue : List Event := [Event.ioperm 0xa05 2 1 0, Event.outb 0xe2 0xa05]

/-- The invariant of `main`: at each control point, what the trace and the
variables are.  The control points after the loop carry `False`. -/
def Inv (env : Env) (s : State) : Prop :=
  match s.pc with
  | Pc.L19_ioperm => s = init
  | Pc.L19_perror =>
      env.ioperm_ret 0 ≠ 0 ∧ s.trace = [Event.ioperm 0xa05 2 1 (env.ioperm_ret 0)]
  | Pc.L19_return =>
      env.ioperm_ret 0 ≠ 0 ∧
        s.trace = [Event.ioperm 0xa05 2 1 (env.ioperm_ret 0), Event.perror "ioperm"]
  | Pc.exited st =>
      env.ioperm_ret 0 ≠ 0 ∧ st = 1 ∧
        s.trace = [Event.ioperm 0xa05 2 1 (env.ioperm_ret 0), Event.perror "ioperm", Event.exit 1]
  | Pc.L22_outb =>
      env.ioperm_ret 0 = 0 ∧ s.nread = 0 ∧ s.trace = [Event.ioperm 0xa05 2 1 0]
  | Pc.L23_while => env.ioperm_ret 0 = 0 ∧ s.trace = prologue ++ loopTrace env s.nread
  | Pc.L24_inb => env.ioperm_ret 0 = 0 ∧ s.trace = prologue ++ loopTrace env s.nread
  | Pc.L25_printf =>
      env.ioperm_ret 0 = 0 ∧ ∃ k, s.nread = k + 1 ∧ s.value = masked (inb env k) ∧
        s.trace = prologue ++ loopTrace env k ++ [Event.inb 0xa06 (inb env k)]
  | Pc.L26_usleep =>
      env.ioperm_ret 0 = 0 ∧ ∃ k, s.nread = k + 1 ∧
        s.trace = prologue ++ loopTrace env k ++
          [Event.inb 0xa06 (inb env k), Event.printf (printf_out (masked (inb env k)))]
  | _ => False

theorem inv_init (env : Env) : Inv env init := by
  simp [Inv, init]

theorem inv_step {env : Env} {s t : State} (h : Inv env s) (hst : step env s = some t) :
    Inv env t := by
  obtain ⟨pc, value, nperm, nread, trace⟩ := s
  cases pc <;> simp [Inv, init] at h <;> simp [step] at hst <;> subst hst
  · obtain ⟨-, rfl, rfl, rfl⟩ := h
    by_cases hr : env.ioperm_ret 0 = 0
    · simp [Inv, hr, BASEPORT, NPORTS]
    · simp [Inv, hr, BASEPORT, NPORTS]
  · obtain ⟨hr, rfl⟩ := h
    simp [Inv, hr]
  · obtain ⟨hr, rfl⟩ := h
    simp [Inv, hr]
  · obtain ⟨hr, rfl, rfl⟩ := h
    simp [Inv, hr, prologue, loopTrace, COPY_BUTTON, BASEPORT]
  · obtain ⟨hr, rfl⟩ := h
    simp [Inv, hr]
  · obtain ⟨hr, rfl⟩ := h
    simp [Inv, hr, BASEPORT]
  · obtain ⟨hr, k, rfl, rfl, rfl⟩ := h
    simp [Inv, hr]
  · obtain ⟨hr, k, rfl, rfl⟩ := h
    simp [Inv, hr, loopTrace, iter]

theorem inv_main {env : Env} : ∀ {n : Nat} {s : State}, main env n = some s → Inv env s
  | 0, s, h => by
      simp only [main, Option.some.injEq] at h
      subst h
      exact inv_init env
  | n + 1, s, h => by
      simp only [main, Option.bind_eq_some] at h
      obtain ⟨t, ht, hst⟩ := h
      exact inv_step (inv_main ht) hst

theorem reachable_of_main {env : Env} : ∀ {n : Nat} {s : State}, main env n = some s →
    Reachable env s
  | 0, s, h => by
      simp only [main, Option.some.injEq] at h
      subst h
      exact Reachable.start
  | n + 1, s, h => by
      simp only [main, Option.bind_eq_some] at h
      obtain ⟨t, ht, hst⟩ := h
      exact Reachable.next (reachable_of_main ht) hst

theorem main_of_reachable {env : Env} {s : State} (h : Reachable env s) :
    ∃ n, main env n = some s := by
  induction h with
  | start => exact ⟨0, rfl⟩
  | next _ hst ih =>
      obtain ⟨n, hn⟩ := ih
      exact ⟨n + 1, by simp only [main, hn, Option.some_bind]; exact hst⟩

theorem inv_reachable {env : Env} {s : State} (h : Reachable env s) : Inv env s := by
  obtain ⟨n, hn⟩ := main_of_reachable h
  exact inv_main hn

/-! ## What the loop part of a trace contains -/

theorem mem_iter {env : Env} {k : Nat} {e : Event} (h : e ∈ iter env k) :
    e = Event.inb 0xa06 (inb env k) ∨ e = Event.printf (printf_out (masked (inb env k))) ∨
      e = Event.usleep 1000000 := by
  simpa [iter] using h

theorem mem_loopTrace {env : Env} {e : Event} : ∀ {k : Nat}, e ∈ loopTrace env k →
    ∃ i, i < k ∧ e ∈ iter env i
  | 0, h => by simp [loopTrace] at h
  | k + 1, h => by
      simp only [loopTrace, List.mem_append] at h
      rcases h with h | h
      · obtain ⟨i, hi, he⟩ := mem_loopTrace h
        exact ⟨i, by omega, he⟩
      · exact ⟨k, by omega, h⟩

theorem reads_loopTrace (env : Env) : ∀ k : Nat,
    reads (loopTrace env k) = (List.range k).map (inb env)
  | 0 => by simp [loopTrace, reads]
  | k + 1 => by
      have ih := reads_loopTrace env k
      simp only [reads] at ih
      simp [loopTrace, reads, List.filterMap_append, ih, iter, Event.byte?, List.range_succ]

theorem outputs_loopTrace (env : Env) : ∀ k : Nat,
    outputs (loopTrace env k) = (List.range k).map (fun i => printf_out (masked (inb env i)))
  | 0 => by simp [loopTrace, outputs]
  | k + 1 => by
      have ih := outputs_loopTrace env k
      simp only [outputs] at ih
      simp [loopTrace, outputs, List.filterMap_append, ih, iter, Event.out?, List.range_succ]

/-! ## The mask and the reported state -/

theorem and_mask_eq (b : Nat) : b &&& 0x04 = if b.testBit 2 then 4 else 0 := by
  have h := Nat.and_two_pow b 2
  cases hb : b.testBit 2 <;> simp [hb] at h ⊢ <;> exact h

theorem and_mask_ne_zero_iff (b : Nat) : b &&& 0x04 ≠ 0 ↔ b.testBit 2 = true := by
  rw [and_mask_eq]
  cases b.testBit 2 <;> simp

theorem printf_out_masked (b : Nat) :
    printf_out (masked b) =
      if b.testBit 2 then "COPY button: released\n" else "COPY button: pressed\n" := by
  have h : b &&& COPY_BUTTON_B = if b.testBit 2 then 4 else 0 := and_mask_eq b
  cases hb : b.testBit 2 <;> simp [hb] at h <;> simp [printf_out, masked, h]

/-- C1: in a poll iteration (a state about to execute line 24) the read of
the data port delivers a byte `b` below 256, the next statement prints one
line, and that line is "COPY button: released" exactly when bit 2 of `b` is
set (`b AND 0x04` nonzero) and "COPY button: pressed" otherwise; any byte
with the same bit 2 gives the same line; `0xFF` gives "released", `0x00` and
`0xFB` give "pressed". -/
theorem C1_state_follows_bit2 (env : Env) (s : State) (hpc : s.pc = Pc.L24_inb) :
    ∃ b s1 s2, b = inb env s.nread ∧ b < 256 ∧
      step env s = some s1 ∧ s1.trace = s.trace ++ [Event.inb 0xa06 b] ∧
      step env s1 = some s2 ∧
      s2.trace = s1.trace ++ [Event.printf
        (if b &&& 0x04 ≠ 0 then "COPY button: released\n" else "COPY button: pressed\n")] ∧
      (b &&& 0x04 ≠ 0 ↔ b.testBit 2 = true) ∧
      (∀ c : Nat, c.testBit 2 = b.testBit 2 →
        printf_out (masked c) = printf_out (masked b)) ∧
      printf_out (masked 0xFF) = "COPY button: released\n" ∧
      printf_out (masked 0x00) = "COPY button: pressed\n" ∧
      printf_out (masked 0xFB) = "COPY button: pressed\n" := by
  obtain ⟨pc, value, nperm, nread, trace⟩ := s
  subst hpc
  refine ⟨inb env nread, _, _, rfl, ?_, rfl, ?_, rfl, ?_, and_mask_ne_zero_iff _, ?_, ?_, ?_, ?_⟩
  · exact Nat.mod_lt _ (by norm_num)
  · simp [BASEPORT]
  · simp only [printf_out_masked, and_mask_ne_zero_iff]
  · intro c hc
    simp only [printf_out_masked, hc]
  · decide
  · decide
  · decide

theorem C1_state_follows_bit2_witness :
    ∃ b s1 s2, b = inb (constEnv 0 0xFB) 0 ∧ b < 256 ∧
      step (constEnv 0 0xFB) ⟨Pc.L24_inb, 0, 1, 0, prologue⟩ = some s1 ∧
      s1.trace = prologue ++ [Event.inb 0xa06 b] ∧
      step (constEnv 0 0xFB) s1 = some s2 ∧
      s2.trace = s1.trace ++ [Event.printf
        (if b &&& 0x04 ≠ 0 then "COPY button: released\n" else "COPY button: pressed\n")] ∧
      (b &&& 0x04 ≠ 0 ↔ b.testBit 2 = true) ∧
      (∀ c : Nat, c.testBit 2 = b.testBit 2 →
        printf_out (masked c) = printf_out (masked b)) ∧
      printf_out (masked 0xFF) = "COPY button: released\n" ∧
      printf_out (masked 0x00) = "COPY button: pressed\n" ∧
      printf_out (masked 0xFB) = "COPY button: pressed\n" :=
  C1_state_follows_bit2 (constEnv 0 0xFB) ⟨Pc.L24_inb, 0, 1, 0, prologue⟩ rfl

/-! ## Failure of the permission request -/

theorem main_none_after {env : Env} {n : Nat} (h : main env n = none) :
    ∀ m, main env (n + m) = none
  | 0 => h
  | m + 1 => by
      have ih := main_none_after h m
      show (main env (n + m)).bind (step env) = none
      rw [ih]
      rfl

/-- C2: when the first `ioperm` call returns nonzero, `main` runs exactly
three statements: the request, `perror("ioperm")` and `return(1)`.  The
process has then exited with status 1, no further step exists, and every
trace of the run is a prefix of these three events, so it holds no port
write, no port read, no standard-output line, no sleep and one permission
request only. -/
theorem C2_permission_failure_is_fatal (env : Env) (hfail : env.ioperm_ret 0 ≠ 0) :
    (∃ s, main env 3 = some s ∧ s.pc = Pc.exited 1 ∧ step env s = none ∧
      s.trace = [Event.ioperm 0xa05 2 1 (env.ioperm_ret 0), Event.perror "ioperm",
        Event.exit 1]) ∧
    (∀ n, 3 < n → main env n = none) ∧
    (∀ n s, main env n = some s →
      s.trace <+: [Event.ioperm 0xa05 2 1 (env.ioperm_ret 0), Event.perror "ioperm",
        Event.exit 1] ∧
      (∀ e ∈ s.trace, e.isWrite = false ∧ e.isRead = false ∧ e.isPrintf = false ∧
        e.isSleep = false) ∧
      (s.trace.filter Event.isIoperm).length ≤ 1) := by
  have h3 : main env 3 = some ⟨Pc.exited 1, 0, 1, 0,
      [Event.ioperm 0xa05 2 1 (env.ioperm_ret 0), Event.perror "ioperm", Event.exit 1]⟩ := by
    simp [main, init, step, hfail, BASEPORT, NPORTS]
  have h4 : main env 4 = none := by
    simp only [main] at h3 ⊢
    rw [h3]
    rfl
  refine ⟨⟨_, h3, rfl, rfl, rfl⟩, ?_, ?_⟩
  · intro n hn
    obtain ⟨m, rfl⟩ : ∃ m, n = 4 + m := ⟨n - 4, by omega⟩
    exact main_none_after h4 m
  · intro n s hs
    have hinv := inv_main hs
    obtain ⟨pc, value, nperm, nread, trace⟩ := s
    cases pc <;> simp [Inv, init, hfail] at hinv
    · obtain ⟨-, -, -, rfl⟩ := hinv
      simp
    · subst hinv
      refine ⟨⟨[Event.perror "ioperm", Event.exit 1], by simp⟩, ?_, ?_⟩
      · simp [Event.isWrite, Event.isRead, Event.isPrintf, Event.isSleep]
      · simp [List.filter, Event.isIoperm]
    · subst hinv
      refine ⟨⟨[Event.exit 1], by simp⟩, ?_, ?_⟩
      · simp [Event.isWrite, Event.isRead, Event.isPrintf, Event.isSleep]
      · simp [List.filter, Event.isIoperm]
    · obtain ⟨-, rfl⟩ := hinv
      refine ⟨List.prefix_refl _, ?_, ?_⟩
      · simp [Event.isWrite, Event.isRead, Event.isPrintf, Event.isSleep]
      · simp [List.filter, Event.isIoperm]

theorem C2_permission_failure_is_fatal_witness :
    (∃ s, main (constEnv (-1) 0) 3 = some s ∧ s.pc = Pc.exited 1 ∧
      step (constEnv (-1) 0) s = none ∧
      s.trace = [Event.ioperm 0xa05 2 1 ((constEnv (-1) 0).ioperm_ret 0),
        Event.perror "ioperm", Event.exit 1]) ∧
    (∀ n, 3 < n → main (constEnv (-1) 0) n = none) ∧
    (∀ n s, main (constEnv (-1) 0) n = some s →
      s.trace <+: [Event.ioperm 0xa05 2 1 ((constEnv (-1) 0).ioperm_ret 0),
        Event.perror "ioperm", Event.exit 1] ∧
      (∀ e ∈ s.trace, e.isWrite = false ∧ e.isRead = false ∧ e.isPrintf = false ∧
        e.isSleep = false) ∧
      (s.trace.filter Event.isIoperm).length ≤ 1) :=
  C2_permission_failure_is_fatal (constEnv (-1) 0) (by decide)

/-! ## The index write -/

theorem iter_no_write {env : Env} {i : Nat} {e : Event} (h : e ∈ iter env i) :
    e.isWrite = false := by
  rcases mem_iter h with rfl | rfl | rfl <;> rfl

theorem loopTrace_no_write {env : Env} {k : Nat} {e : Event} (h : e ∈ loopTrace env k) :
    e.isWrite = false := by
  obtain ⟨i, -, hi⟩ := mem_loopTrace h
  exact iter_no_write hi

theorem filter_eq_nil_of_all_false {p : Event → Bool} {l : List Event}
    (h : ∀ e ∈ l, p e = false) : l.filter p = [] := by
  rw [List.filter_eq_nil_iff]
  intro e he
  simp [h e he]

/-- C3, as the code has it: two passes through the loop with the permission
granted and the data port delivering 0.  The trace up to and including the
second read holds one write of `0xe2` to port `0xa05`, not two: no write
stands between the first read and the second. -/
theorem C3_counterexample :
    ∃ s, main (constEnv 0 0) 8 = some s ∧
      s.trace = [Event.ioperm 0xa05 2 1 0, Event.outb 0xe2 0xa05,
        Event.inb 0xa06 0, Event.printf "COPY button: pressed\n", Event.usleep 1000000,
        Event.inb 0xa06 0] ∧
      (s.trace.filter Event.isRead).length = 2 ∧
      (s.trace.filter Event.isWrite).length = 1 ∧
      (s.trace.filter Event.isWrite).length ≠ (s.trace.filter Event.isRead).length :=
  ⟨_, rfl, by decide, by decide, by decide, by decide⟩

/-- C3, amended: the index `0xe2` is written to the base port `0xa05` once,
by the statement after the successful permission request and before the
loop.  Every trace that holds a read starts with the request and this write,
and the rest of it holds no port write: the writes of the trace are this
single one, however many reads there are. -/
theorem C3_index_written_once_before_loop (env : Env) (n : Nat) (s : State)
    (hs : main env n = some s) (hread : ∃ e ∈ s.trace, e.isRead = true) :
    (∃ rest, s.trace = Event.ioperm 0xa05 2 1 0 :: Event.outb 0xe2 0xa05 :: rest ∧
      ∀ e ∈ rest, e.isWrite = false) ∧
    s.trace.filter Event.isWrite = [Event.outb 0xe2 0xa05] := by
  have key : ∃ rest, s.trace = Event.ioperm 0xa05 2 1 0 :: Event.outb 0xe2 0xa05 :: rest ∧
      ∀ e ∈ rest, e.isWrite = false := by
    have hinv := inv_main hs
    obtain ⟨pc, value, nperm, nread, trace⟩ := s
    obtain ⟨e, he, her⟩ := hread
    cases pc <;> simp [Inv, init] at hinv
    · obtain ⟨-, -, -, rfl⟩ := hinv
      simp at he
    · obtain ⟨-, rfl⟩ := hinv
      simp at he
      subst he
      simp [Event.isRead] at her
    · obtain ⟨-, rfl⟩ := hinv
      simp at he
      rcases he with rfl | rfl <;> simp [Event.isRead] at her
    · obtain ⟨-, -, rfl⟩ := hinv
      simp at he
      subst he
      simp [Event.isRead] at her
    · obtain ⟨-, rfl⟩ := hinv
      exact ⟨loopTrace env nread, rfl, fun e he => loopTrace_no_write he⟩
    · obtain ⟨-, rfl⟩ := hinv
      exact ⟨loopTrace env nread, rfl, fun e he => loopTrace_no_write he⟩
    · obtain ⟨-, k, -, -, rfl⟩ := hinv
      refine ⟨loopTrace env k ++ [Event.inb 0xa06 (inb env k)], rfl, ?_⟩
      intro e he
      rcases List.mem_append.1 he with h | h
      · exact loopTrace_no_write h
      · simp at h
        subst h
        rfl
    · obtain ⟨-, k, -, rfl⟩ := hinv
      refine ⟨loopTrace env k ++ [Event.inb 0xa06 (inb env k),
        Event.printf (printf_out (masked (inb env k)))], rfl, ?_⟩
      intro e he
      rcases List.mem_append.1 he with h | h
      · exact loopTrace_no_write h
      · simp at h
        rcases h with rfl | rfl <;> rfl
    · obtain ⟨-, -, rfl⟩ := hinv
      simp at he
      rcases he with rfl | rfl | rfl <;> simp [Event.isRead] at her
  refine ⟨key, ?_⟩
  obtain ⟨rest, hrest, hno⟩ := key
  rw [hrest]
  simp [List.filter, Event.isWrite, filter_eq_nil_of_all_false hno]

theorem C3_index_written_once_before_loop_witness :
    (∃ rest, [Event.ioperm 0xa05 2 1 0, Event.outb 0xe2 0xa05,
        Event.inb 0xa06 0, Event.printf "COPY button: pressed\n", Event.usleep 1000000,
        Event.inb 0xa06 0] = Event.ioperm 0xa05 2 1 0 :: Event.outb 0xe2 0xa05 :: rest ∧
      ∀ e ∈ rest, e.isWrite = false) ∧
    [Event.ioperm 0xa05 2 1 0, Event.outb 0xe2 0xa05,
        Event.inb 0xa06 0, Event.printf "COPY button: pressed\n", Event.usleep 1000000,
        Event.inb 0xa06 0].filter Event.isWrite = [Event.outb 0xe2 0xa05] :=
  C3_index_written_once_before_loop (constEnv 0 0) 8
    ⟨Pc.L25_printf, 0, 1, 2, [Event.ioperm 0xa05 2 1 0, Event.outb 0xe2 0xa05,
        Event.inb 0xa06 0, Event.printf "COPY button: pressed\n", Event.usleep 1000000,
        Event.inb 0xa06 0]⟩ rfl ⟨Event.inb 0xa06 0, by simp, rfl⟩

/-! ## The constants on the wire -/

/-- The event carries the port, the value and the range of the source:
a write is `0xe2` to `0xa05`, a read is from `0xa06`, a permission request
is for `0xa05` and 2 ports. -/
def Event.exact : Event → Prop
  | Event.outb v p => v = 0xE2 ∧ p = 0xA05
  | Event.inb p _ => p = 0xA06
  | Event.ioperm a m _ _ => a = 0xA05 ∧ m = 2
  | _ => True

theorem exact_of_inv {env : Env} {s : State} (hinv : Inv env s) :
    ∀ e ∈ s.trace, e.exact := by
  have hloop : ∀ k, ∀ e ∈ loopTrace env k, e.exact := by
    intro k e he
    obtain ⟨i, -, hi⟩ := mem_loopTrace he
    rcases mem_iter hi with rfl | rfl | rfl <;> simp [Event.exact]
  obtain ⟨pc, value, nperm, nread, trace⟩ := s
  cases pc <;> simp [Inv, init] at hinv
  · obtain ⟨-, -, -, rfl⟩ := hinv
    simp
  · obtain ⟨-, rfl⟩ := hinv
    simp [Event.exact]
  · obtain ⟨-, rfl⟩ := hinv
    simp [Event.exact]
  · obtain ⟨-, -, rfl⟩ := hinv
    simp [Event.exact]
  · obtain ⟨-, rfl⟩ := hinv
    intro e he
    rcases List.mem_append.1 he with h | h
    · simp [prologue] at h
      rcases h with rfl | rfl <;> simp [Event.exact]
    · exact hloop _ e h
  · obtain ⟨-, rfl⟩ := hinv
    intro e he
    rcases List.mem_append.1 he with h | h
    · simp [prologue] at h
      rcases h with rfl | rfl <;> simp [Event.exact]
    · exact hloop _ e h
  · obtain ⟨-, k, -, -, rfl⟩ := hinv
    intro e he
    rcases List.mem_append.1 he with h | h
    · simp [prologue] at h
      rcases h with rfl | rfl <;> simp [Event.exact]
    · rcases List.mem_append.1 h with h | h
      · exact hloop _ e h
      · simp at h
        subst h
        simp [Event.exact]
  · obtain ⟨-, k, -, rfl⟩ := hinv
    intro e he
    rcases List.mem_append.1 he with h | h
    · simp [prologue] at h
      rcases h with rfl | rfl <;> simp [Event.exact]
    · rcases List.mem_append.1 h with h | h
      · exact hloop _ e h
      · simp at h
        rcases h with rfl | rfl <;> simp [Event.exact]
  · obtain ⟨-, -, rfl⟩ := hinv
    simp [Event.exact]

/-- C4: in every trace of the program each port write is of value `0xE2` to
port `0xA05`, each port read is from port `0xA06`, and each permission
request names base `0xA05` and 2 ports; `0xA06` is `BASEPORT + 1`, the mask
`COPY_BUTTON_B` is `0x04`, and the value the read statement stores is the
read byte ANDed with `0x04`. -/
theorem C4_bit_exact_interface (env : Env) (n : Nat) (s : State)
    (hs : main env n = some s) :
    (∀ v p, Event.outb v p ∈ s.trace → v = 0xE2 ∧ p = 0xA05) ∧
    (∀ p b, Event.inb p b ∈ s.trace → p = 0xA06) ∧
    (∀ a m t r, Event.ioperm a m t r ∈ s.trace → a = 0xA05 ∧ m = 2) ∧
    BASEPORT = 0xA05 ∧ BASEPORT + 1 = 0xA06 ∧ NPORTS = 2 ∧ COPY_BUTTON = 0xE2 ∧
    COPY_BUTTON_B = 0x04 ∧
    (s.pc = Pc.L24_inb → ∃ t, step env s = some t ∧
      t.value = ((inb env s.nread &&& 0x04 : Nat) : Int)) := by
  have h := exact_of_inv (inv_main hs)
  refine ⟨fun v p he => h _ he, fun p b he => h _ he, fun a m t r he => h _ he,
    rfl, rfl, rfl, rfl, rfl, ?_⟩
  intro hpc
  obtain ⟨pc, value, nperm, nread, trace⟩ := s
  subst hpc
  exact ⟨_, rfl, rfl⟩

theorem C4_bit_exact_interface_witness :
    (∀ v p, Event.outb v p ∈ prologue ++ iter (constEnv 0 0xFF) 0 → v = 0xE2 ∧ p = 0xA05) ∧
    (∀ p b, Event.inb p b ∈ prologue ++ iter (constEnv 0 0xFF) 0 → p = 0xA06) ∧
    (∀ a m t r, Event.ioperm a m t r ∈ prologue ++ iter (constEnv 0 0xFF) 0 →
      a = 0xA05 ∧ m = 2) ∧
    BASEPORT = 0xA05 ∧ BASEPORT + 1 = 0xA06 ∧ NPORTS = 2 ∧ COPY_BUTTON = 0xE2 ∧
    COPY_BUTTON_B = 0x04 ∧
    (Pc.L24_inb = Pc.L24_inb → ∃ t,
      step (constEnv 0 0xFF) ⟨Pc.L24_inb, 4, 1, 1, prologue ++ iter (constEnv 0 0xFF) 0⟩ =
        some t ∧
      t.value = ((inb (constEnv 0 0xFF) 1 &&& 0x04 : Nat) : Int)) :=
  C4_bit_exact_interface (constEnv 0 0xFF) 7
    ⟨Pc.L24_inb, 4, 1, 1, prologue ++ iter (constEnv 0 0xFF) 0⟩ rfl

/-! ## The run with the permission granted -/

theorem main_after_passes {env : Env} (hok : env.ioperm_ret 0 = 0) : ∀ k : Nat,
    ∃ s, main env (2 + 4 * k) = some s ∧ s.pc = Pc.L23_while ∧ s.nread = k ∧
      s.trace = prologue ++ loopTrace env k
  | 0 => by
      refine ⟨⟨Pc.L23_while, 0, 1, 0, prologue⟩, ?_, rfl, rfl, by simp [loopTrace]⟩
      simp [main, init, step, hok, BASEPORT, NPORTS, COPY_BUTTON, prologue]
  | k + 1 => by
      obtain ⟨⟨pc, value, nperm, nread, trace⟩, hs, hpc, hnr, htr⟩ := main_after_passes hok k
      simp only at hpc hnr htr
      subst hpc hnr htr
      have e : 2 + 4 * (nread + 1) = 2 + 4 * nread + 1 + 1 + 1 + 1 := by ring
      refine ⟨⟨Pc.L23_while, masked (inb env nread), nperm, nread + 1,
        prologue ++ loopTrace env (nread + 1)⟩, ?_, rfl, rfl, rfl⟩
      rw [e]
      simp [main, hs, step, loopTrace, iter, BASEPORT]

/-- C5: with the permission granted, after `n` passes through the loop
(`2 + 4 * n` statements: the request, the index write, and four statements
per pass) the process is back at the loop head, `n` bytes have been read,
`n` sleeps have been made, and standard output has received exactly `n`
texts, the `k`-th being the line "COPY button: released" when bit 2 of the
`k`-th byte read is set and the line "COPY button: pressed" otherwise, each
ended by a newline. -/
theorem C5_one_line_per_cycle (env : Env) (hok : env.ioperm_ret 0 = 0) (n : Nat) :
    ∃ s, main env (2 + 4 * n) = some s ∧ s.pc = Pc.L23_while ∧
      reads s.trace = (List.range n).map (inb env) ∧
      (s.trace.filter Event.isSleep).length = n ∧
      (outputs s.trace).length = n ∧
      outputs s.trace = (reads s.trace).map (fun b =>
        if b.testBit 2 then "COPY button: released\n" else "COPY button: pressed\n") := by
  obtain ⟨s, hs, hpc, -, htr⟩ := main_after_passes hok n
  have hr : reads s.trace = (List.range n).map (inb env) := by
    rw [htr, ← reads_loopTrace]
    simp [reads, prologue, Event.byte?]
  have ho : outputs s.trace = (List.range n).map (fun i => printf_out (masked (inb env i))) := by
    rw [htr, ← outputs_loopTrace]
    simp [outputs, prologue, Event.out?]
  have hsl : ∀ k, ((loopTrace env k).filter Event.isSleep).length = k := by
    intro k
    induction k with
    | zero => simp [loopTrace]
    | succ k ih => simp [loopTrace, iter, List.filter, Event.isSleep, ih]
  refine ⟨s, hs, hpc, hr, ?_, ?_, ?_⟩
  · rw [htr]
    simp [prologue, List.filter, Event.isSleep, hsl]
  · simp [ho]
  · rw [hr, ho]
    simp [printf_out_masked]

theorem C5_one_line_per_cycle_witness :
    ∃ s, main (constEnv 0 0xFF) (2 + 4 * 2) = some s ∧ s.pc = Pc.L23_while ∧
      reads s.trace = (List.range 2).map (inb (constEnv 0 0xFF)) ∧
      (s.trace.filter Event.isSleep).length = 2 ∧
      (outputs s.trace).length = 2 ∧
      outputs s.trace = (reads s.trace).map (fun b =>
        if b.testBit 2 then "COPY button: released\n" else "COPY button: pressed\n") :=
  C5_one_line_per_cycle (constEnv 0 0xFF) rfl 2

/-! ## The shape of every trace -/

/-- Every trace is empty, or is the permission request followed by a prefix
of the failure epilogue (request refused) or by a prefix of the index write
and some passes through the loop (request granted). -/
theorem trace_shape {env : Env} {s : State} (hinv : Inv env s) :
    s.trace = [] ∨ ∃ rest, s.trace = Event.ioperm 0xa05 2 1 (env.ioperm_ret 0) :: rest ∧
      ((env.ioperm_ret 0 ≠ 0 ∧ rest <+: [Event.perror "ioperm", Event.exit 1]) ∨
       (env.ioperm_ret 0 = 0 ∧ ∃ k, rest <+: Event.outb 0xe2 0xa05 :: loopTrace env k)) := by
  obtain ⟨pc, value, nperm, nread, trace⟩ := s
  cases pc <;> simp only [Inv, init] at hinv
  · left
    simp only [State.mk.injEq] at hinv
    exact hinv.2.2.2.2
  · obtain ⟨hr, rfl⟩ := hinv
    exact Or.inr ⟨[], rfl, Or.inl ⟨hr, List.nil_prefix⟩⟩
  · obtain ⟨hr, rfl⟩ := hinv
    exact Or.inr ⟨_, rfl, Or.inl ⟨hr, ⟨[Event.exit 1], rfl⟩⟩⟩
  · obtain ⟨hr, -, rfl⟩ := hinv
    exact Or.inr ⟨[], by simp [hr], Or.inr ⟨hr, 0, List.nil_prefix⟩⟩
  · obtain ⟨hr, rfl⟩ := hinv
    exact Or.inr ⟨_, by simp [hr, prologue], Or.inr ⟨hr, nread, List.prefix_refl _⟩⟩
  · obtain ⟨hr, rfl⟩ := hinv
    exact Or.inr ⟨_, by simp [hr, prologue], Or.inr ⟨hr, nread, List.prefix_refl _⟩⟩
  · obtain ⟨hr, k, -, -, rfl⟩ := hinv
    refine Or.inr ⟨Event.outb 0xe2 0xa05 :: (loopTrace env k ++ [Event.inb 0xa06 (inb env k)]),
      by simp [hr, prologue], Or.inr ⟨hr, k + 1, ?_⟩⟩
    exact ⟨[Event.printf (printf_out (masked (inb env k))), Event.usleep 1000000],
      by simp [loopTrace, iter]⟩
  · obtain ⟨hr, k, -, rfl⟩ := hinv
    refine Or.inr ⟨Event.outb 0xe2 0xa05 :: (loopTrace env k ++ [Event.inb 0xa06 (inb env k),
      Event.printf (printf_out (masked (inb env k)))]),
      by simp [hr, prologue], Or.inr ⟨hr, k + 1, ?_⟩⟩
    exact ⟨[Event.usleep 1000000], by simp [loopTrace, iter]⟩
  · obtain ⟨hr, -, rfl⟩ := hinv
    exact Or.inr ⟨_, rfl, Or.inl ⟨hr, List.prefix_refl _⟩⟩

/-! ## No way out of the loop -/

theorem polling_of_inv {env : Env} {s : State} (hinv : Inv env s)
    (hok : env.ioperm_ret 0 = 0) : s = init ∨ s.pc.isPolling = true := by
  obtain ⟨pc, value, nperm, nread, trace⟩ := s
  cases pc <;> simp [Inv, hok] at hinv <;> simp [hinv, Pc.isPolling]

theorem step_of_polling (env : Env) {s : State} (h : s = init ∨ s.pc.isPolling = true) :
    ∃ t, step env s = some t ∧ t.pc ≠ Pc.L19_ioperm := by
  rcases h with rfl | h
  · refine ⟨_, rfl, ?_⟩
    simp only [init]
    split <;> simp
  · obtain ⟨pc, value, nperm, nread, trace⟩ := s
    cases pc <;> simp [Pc.isPolling] at h <;> exact ⟨_, rfl, by simp⟩

theorem main_total {env : Env} (hok : env.ioperm_ret 0 = 0) : ∀ n : Nat,
    ∃ s, main env (n + 1) = some s ∧ s.pc.isPolling = true
  | 0 => by
      obtain ⟨t, ht, hpc⟩ := step_of_polling env (Or.inl rfl)
      have hm : main env 1 = some t := ht
      refine ⟨t, hm, ?_⟩
      rcases polling_of_inv (inv_main hm) hok with h | h
      · rw [h] at hpc
        exact absurd rfl hpc
      · exact h
  | n + 1 => by
      obtain ⟨s, hs, hp⟩ := main_total hok n
      obtain ⟨t, ht, hpc⟩ := step_of_polling env (Or.inr hp)
      have hm : main env (n + 1 + 1) = some t := by
        show (main env (n + 1)).bind (step env) = some t
        rw [hs]
        exact ht
      refine ⟨t, hm, ?_⟩
      rcases polling_of_inv (inv_main hm) hok with h | h
      · rw [h] at hpc
        exact absurd rfl hpc
      · exact h

/-- C6: with the permission granted, `main` never stops: after any number
`n ≥ 1` of statements the process is in a polling state (line 22 or the
loop of lines 23 to 27); every reachable state past the request is a
polling state; every reachable state has a successor; no reachable state is
at the trailing `ioperm` of line 28 or has exited; and no reachable trace
holds an exit or an `ioperm` call with `turn_on = 0`. -/
theorem C6_loop_never_exits (env : Env) (hok : env.ioperm_ret 0 = 0) :
    (∀ n, 1 ≤ n → ∃ s, main env n = some s ∧ s.pc.isPolling = true) ∧
    (∀ s, Reachable env s → s.trace ≠ [] → s.pc.isPolling = true) ∧
    (∀ s, Reachable env s → ∃ t, Step env s t) ∧
    (∀ s, Reachable env s → s.pc ≠ Pc.L28_ioperm ∧ (∀ st, s.pc ≠ Pc.exited st) ∧
      (∀ st, Event.exit st ∉ s.trace) ∧ ∀ a m r, Event.ioperm a m 0 r ∉ s.trace) := by
  refine ⟨?_, ?_, ?_, ?_⟩
  · intro n hn
    obtain ⟨m, rfl⟩ : ∃ m, n = m + 1 := ⟨n - 1, by omega⟩
    exact main_total hok m
  · intro s hs hne
    rcases polling_of_inv (inv_reachable hs) hok with h | h
    · rw [h] at hne
      exact absurd rfl hne
    · exact h
  · intro s hs
    obtain ⟨t, ht, -⟩ := step_of_polling env (polling_of_inv (inv_reachable hs) hok)
    exact ⟨t, ht⟩
  · intro s hs
    have hinv := inv_reachable hs
    have hp := polling_of_inv hinv hok
    have hpc : s.pc ≠ Pc.L28_ioperm ∧ ∀ st, s.pc ≠ Pc.exited st := by
      rcases hp with rfl | h
      · simp [init]
      · constructor
        · intro h28
          rw [h28] at h
          simp [Pc.isPolling] at h
        · intro st hst
          rw [hst] at h
          simp [Pc.isPolling] at h
    have hmem : ∀ e ∈ s.trace, e = Event.ioperm 0xa05 2 1 0 ∨ e = Event.outb 0xe2 0xa05 ∨
        ∃ k, e ∈ iter env k := by
      intro e he
      rcases trace_shape hinv with h | ⟨rest, hrest, h | ⟨-, k, hk⟩⟩
      · rw [h] at he
        simp at he
      · exact absurd hok h.1
      · rw [hrest, hok] at he
        rcases List.mem_cons.1 he with h | h
        · exact Or.inl h
        · rcases List.mem_cons.1 (hk.subset h) with h | h
          · exact Or.inr (Or.inl h)
          · obtain ⟨i, -, hi⟩ := mem_loopTrace h
            exact Or.inr (Or.inr ⟨i, hi⟩)
    refine ⟨hpc.1, hpc.2, ?_, ?_⟩
    · intro st hst
      rcases hmem _ hst with h | h | ⟨k, h⟩
      · simp at h
      · simp at h
      · simp [iter] at h
    · intro a m r hst
      rcases hmem _ hst with h | h | ⟨k, h⟩
      · simp at h
      · simp at h
      · simp [iter] at h

theorem C6_loop_never_exits_witness :
    (∀ n, 1 ≤ n → ∃ s, main (constEnv 0 0) n = some s ∧ s.pc.isPolling = true) ∧
    (∀ s, Reachable (constEnv 0 0) s → s.trace ≠ [] → s.pc.isPolling = true) ∧
    (∀ s, Reachable (constEnv 0 0) s → ∃ t, Step (constEnv 0 0) s t) ∧
    (∀ s, Reachable (constEnv 0 0) s → s.pc ≠ Pc.L28_ioperm ∧ (∀ st, s.pc ≠ Pc.exited st) ∧
      (∀ st, Event.exit st ∉ s.trace) ∧ ∀ a m r, Event.ioperm a m 0 r ∉ s.trace) :=
  C6_loop_never_exits (constEnv 0 0) rfl

/-! ## Permission first, accesses inside the granted range -/

theorem iter_no_ioperm {env : Env} {i : Nat} {e : Event} (h : e ∈ iter env i) :
    e.isIoperm = false := by
  rcases mem_iter h with rfl | rfl | rfl <;> rfl

/-- C7: every trace of the program is empty or starts with the permission
request `ioperm(0xA05, 2, 1)`; no other permission request follows it; and
when a port write or a port read follows it, the request had returned 0
(it had succeeded). -/
theorem C7_permission_before_port_access (env : Env) (n : Nat) (s : State)
    (hs : main env n = some s) :
    s.trace = [] ∨ ∃ r rest, s.trace = Event.ioperm 0xA05 2 1 r :: rest ∧
      BASEPORT = 0xA05 ∧ NPORTS = 2 ∧
      (∀ e ∈ rest, e.isIoperm = false) ∧
      ((∃ e ∈ rest, e.isWrite = true ∨ e.isRead = true) → r = 0) := by
  rcases trace_shape (inv_main hs) with h | ⟨rest, hrest, h⟩
  · exact Or.inl h
  · refine Or.inr ⟨env.ioperm_ret 0, rest, hrest, rfl, rfl, ?_, ?_⟩
    · intro e he
      rcases h with ⟨-, hp⟩ | ⟨-, k, hp⟩
      · have := hp.subset he
        simp at this
        rcases this with rfl | rfl <;> rfl
      · rcases List.mem_cons.1 (hp.subset he) with h | h
        · subst h
          rfl
        · obtain ⟨i, -, hi⟩ := mem_loopTrace h
          exact iter_no_ioperm hi
    · rintro ⟨e, he, hacc⟩
      rcases h with ⟨-, hp⟩ | ⟨hok, -⟩
      · have := hp.subset he
        simp at this
        rcases this with rfl | rfl <;> simp [Event.isWrite, Event.isRead] at hacc
      · exact hok

theorem C7_permission_before_port_access_witness :
    ∃ s, main (constEnv 0 0xFF) 4 = some s ∧
      (s.trace = [] ∨ ∃ r rest, s.trace = Event.ioperm 0xA05 2 1 r :: rest ∧
        BASEPORT = 0xA05 ∧ NPORTS = 2 ∧
        (∀ e ∈ rest, e.isIoperm = false) ∧
        ((∃ e ∈ rest, e.isWrite = true ∨ e.isRead = true) → r = 0)) :=
  ⟨_, rfl, C7_permission_before_port_access (constEnv 0 0xFF) 4 _ rfl⟩

/-- C10: every port the program writes to or reads from, in any trace, is
`0xA05` or `0xA06`: it lies in `[BASEPORT, BASEPORT + NPORTS)`, that is in
`[0xA05, 0xA07)`, and inside the range `[a, a + m)` of every permission
request `ioperm(a, m, _)` of the trace. -/
theorem C10_accesses_within_granted_range (env : Env) (n : Nat) (s : State)
    (hs : main env n = some s) (e : Event) (he : e ∈ s.trace) (p : Nat)
    (hp : e.port? = some p) :
    (BASEPORT ≤ p ∧ p < BASEPORT + NPORTS) ∧ (0xA05 ≤ p ∧ p < 0xA05 + 2) ∧
    (∀ a m t r, Event.ioperm a m t r ∈ s.trace → a ≤ p ∧ p < a + m) := by
  have hex := exact_of_inv (inv_main hs)
  have hrange : 0xA05 ≤ p ∧ p < 0xA05 + 2 := by
    have h := hex e he
    cases e <;> simp [Event.port?] at hp <;> simp [Event.exact] at h <;> omega
  refine ⟨hrange, hrange, ?_⟩
  intro a m t r hio
  have h := hex _ hio
  simp only [Event.exact] at h
  omega

theorem C10_accesses_within_granted_range_witness :
    (BASEPORT ≤ 0xa06 ∧ 0xa06 < BASEPORT + NPORTS) ∧ (0xA05 ≤ 0xa06 ∧ 0xa06 < 0xA05 + 2) ∧
    (∀ a m t r, Event.ioperm a m t r ∈ prologue ++ [Event.inb 0xa06 0xFB] →
      a ≤ 0xa06 ∧ 0xa06 < a + m) :=
  C10_accesses_within_granted_range (constEnv 0 0xFB) 4
    ⟨Pc.L25_printf, 0, 1, 1, prologue ++ [Event.inb 0xa06 0xFB]⟩ rfl
    (Event.inb 0xa06 0xFB) (by simp) 0xa06 rfl

/-! ## Read, print, sleep -/

theorem foldl_mon_none : ∀ l : List Event, l.foldl mon none = none
  | [] => rfl
  | e :: l => by
      rw [List.foldl_cons]
      exact foldl_mon_none l

theorem foldl_mon_prefix {l₁ l₂ : List Event} {q : Option Phase} (hp : l₁ <+: l₂)
    (h : l₂.foldl mon q ≠ none) : l₁.foldl mon q ≠ none := by
  obtain ⟨t, rfl⟩ := hp
  intro h1
  rw [List.foldl_append, h1, foldl_mon_none] at h
  exact h rfl

theorem foldl_mon_loopTrace (env : Env) : ∀ k : Nat,
    (loopTrace env k).foldl mon (some Phase.idle) = some Phase.idle
  | 0 => rfl
  | k + 1 => by
      rw [loopTrace, List.foldl_append, foldl_mon_loopTrace env k]
      simp [iter, mon]

/-- The monitor accepts every trace that holds a read. -/
theorem mon_accepts {env : Env} {s : State} (hinv : Inv env s)
    (hread : ∃ e ∈ s.trace, e.isRead = true) :
    s.trace.foldl mon (some Phase.start) ≠ none := by
  obtain ⟨e, he, her⟩ := hread
  rcases trace_shape hinv with h | ⟨rest, hrest, ⟨-, hp⟩ | ⟨hok, k, hp⟩⟩
  · rw [h] at he
    simp at he
  · rw [hrest] at he
    rcases List.mem_cons.1 he with h | h
    · subst h
      simp [Event.isRead] at her
    · have := hp.subset h
      simp at this
      rcases this with rfl | rfl <;> simp [Event.isRead] at her
  · rw [hrest]
    have hfull : (Event.ioperm 0xa05 2 1 (env.ioperm_ret 0) ::
        Event.outb 0xe2 0xa05 :: loopTrace env k).foldl mon (some Phase.start) ≠ none := by
      simp [mon, foldl_mon_loopTrace]
    exact foldl_mon_prefix (List.prefix_cons_inj _ |>.2 hp) hfull

/-- In an accepted trace, what follows a read is the print and then the
sleep of one second. -/
theorem mon_after_read {t₁ t₂ : List Event} {p b : Nat} {q : Option Phase}
    (h : (t₁ ++ Event.inb p b :: t₂).foldl mon q ≠ none) :
    t₂ = [] ∨ ∃ o, t₂ = [Event.printf o] ∨
      ∃ t₃, t₂ = Event.printf o :: Event.usleep 1000000 :: t₃ ∧
        t₃.foldl mon (some Phase.idle) ≠ none := by
  rw [List.foldl_append, List.foldl_cons] at h
  generalize t₁.foldl mon q = q1 at h
  rcases q1 with _ | ph
  · simp [mon, foldl_mon_none] at h
  cases ph <;> simp [mon, foldl_mon_none] at h
  rcases t₂ with _ | ⟨e, t₂⟩
  · exact Or.inl rfl
  right
  rw [List.foldl_cons] at h
  cases e <;> simp [mon, foldl_mon_none] at h
  rename_i o
  refine ⟨o, ?_⟩
  rcases t₂ with _ | ⟨e, t₃⟩
  · exact Or.inl rfl
  right
  rw [List.foldl_cons] at h
  cases e <;> simp [mon, foldl_mon_none] at h
  rename_i u
  by_cases hu : u = 1000000
  · subst hu
    simp at h
    exact ⟨t₃, rfl, h⟩
  · simp [hu, foldl_mon_none] at h

theorem sleep_of_inv {env : Env} {s : State} (hinv : Inv env s) (u : Nat)
    (hu : Event.usleep u ∈ s.trace) : u = 1000000 := by
  rcases trace_shape hinv with h | ⟨rest, hrest, ⟨-, hp⟩ | ⟨-, k, hp⟩⟩
  · rw [h] at hu
    simp at hu
  · rw [hrest] at hu
    rcases List.mem_cons.1 hu with h | h
    · simp at h
    · have := hp.subset h
      simp at this
  · rw [hrest] at hu
    rcases List.mem_cons.1 hu with h | h
    · simp at h
    · rcases List.mem_cons.1 (hp.subset h) with h | h
      · simp at h
      · obtain ⟨i, -, hi⟩ := mem_loopTrace h
        simpa [iter] using hi

/-- C8: in every trace of the program, what stands between two consecutive
reads of the data port is exactly one print followed by exactly one sleep,
and the sleep asks for 1,000,000 microseconds; after any read, the last one
included, the events come in the order print, then sleep; every sleep of the
trace asks for 1,000,000 microseconds. -/
theorem C8_one_sleep_between_reads (env : Env) (n : Nat) (s : State)
    (hs : main env n = some s) :
    (∀ t₁ p₁ b₁ mid p₂ b₂ t₃,
      s.trace = t₁ ++ Event.inb p₁ b₁ :: (mid ++ Event.inb p₂ b₂ :: t₃) →
      (∀ e ∈ mid, e.isRead = false) →
      ∃ o, mid = [Event.printf o, Event.usleep 1000000]) ∧
    (∀ t₁ p b t₂, s.trace = t₁ ++ Event.inb p b :: t₂ →
      t₂ = [] ∨ ∃ o, t₂ = [Event.printf o] ∨
        ∃ t₃, t₂ = Event.printf o :: Event.usleep 1000000 :: t₃) ∧
    (∀ u, Event.usleep u ∈ s.trace → u = 1000000) := by
  have hinv := inv_main hs
  refine ⟨?_, ?_, sleep_of_inv hinv⟩
  · intro t₁ p₁ b₁ mid p₂ b₂ t₃ htr hmid
    have hacc := mon_accepts hinv ⟨Event.inb p₁ b₁, by simp [htr], rfl⟩
    rw [htr] at hacc
    rcases mon_after_read hacc with h | ⟨o, h | ⟨t, h, ht⟩⟩
    · simp at h
    · rcases mid with _ | ⟨e, mid⟩ <;> simp at h
    · refine ⟨o, ?_⟩
      rcases mid with _ | ⟨e, mid⟩
      · simp at h
      rcases mid with _ | ⟨e₂, mid⟩
      · simp at h
      rcases mid with _ | ⟨e₃, mid⟩
      · simp at h
        simp [h.1, h.2.1]
      · exfalso
        have h3 : e₃.isRead = false := hmid e₃ (by simp)
        simp only [List.cons_append, List.cons.injEq] at h
        obtain ⟨-, -, rfl⟩ := h
        rw [List.foldl_cons] at ht
        cases e₃ <;> simp [mon, foldl_mon_none, Event.isRead] at ht h3
  · intro t₁ p b t₂ htr
    have hacc := mon_accepts hinv ⟨Event.inb p b, by simp [htr], rfl⟩
    rw [htr] at hacc
    rcases mon_after_read hacc with h | ⟨o, h | ⟨t, h, -⟩⟩
    · exact Or.inl h
    · exact Or.inr ⟨o, Or.inl h⟩
    · exact Or.inr ⟨o, Or.inr ⟨t, h⟩⟩

theorem C8_one_sleep_between_reads_witness :
    ∃ s, main (constEnv 0 0) 8 = some s ∧
      s.trace = prologue ++ Event.inb 0xa06 0 ::
        ([Event.printf "COPY button: pressed\n", Event.usleep 1000000] ++
          Event.inb 0xa06 0 :: []) ∧
      (∀ t₁ p₁ b₁ mid p₂ b₂ t₃,
        s.trace = t₁ ++ Event.inb p₁ b₁ :: (mid ++ Event.inb p₂ b₂ :: t₃) →
        (∀ e ∈ mid, e.isRead = false) →
        ∃ o, mid = [Event.printf o, Event.usleep 1000000]) ∧
      (∀ t₁ p b t₂, s.trace = t₁ ++ Event.inb p b :: t₂ →
        t₂ = [] ∨ ∃ o, t₂ = [Event.printf o] ∨
          ∃ t₃, t₂ = Event.printf o :: Event.usleep 1000000 :: t₃) ∧
      (∀ u, Event.usleep u ∈ s.trace → u = 1000000) :=
  ⟨_, rfl, rfl, C8_one_sleep_between_reads (constEnv 0 0) 8 _ rfl⟩

/-! ## Each line depends on its own byte only -/

/-- The reads and the outputs of a reachable trace: the bytes are those the
environment delivered, in order, and each text printed so far is the line of
the byte of the same position. -/
theorem obs_of_inv {env : Env} {s : State} (hinv : Inv env s) :
    ∃ m r, m ≤ r ∧ reads s.trace = (List.range r).map (inb env) ∧
      outputs s.trace = (List.range m).map (fun i => printf_out (masked (inb env i))) := by
  have hr := reads_loopTrace env
  have ho := outputs_loopTrace env
  simp only [reads, outputs] at hr ho
  obtain ⟨pc, value, nperm, nread, trace⟩ := s
  cases pc <;> simp [Inv, init] at hinv
  · obtain ⟨-, -, -, rfl⟩ := hinv
    exact ⟨0, 0, le_refl _, rfl, rfl⟩
  · obtain ⟨-, rfl⟩ := hinv
    exact ⟨0, 0, le_refl _, rfl, rfl⟩
  · obtain ⟨-, rfl⟩ := hinv
    exact ⟨0, 0, le_refl _, rfl, rfl⟩
  · obtain ⟨-, -, rfl⟩ := hinv
    exact ⟨0, 0, le_refl _, rfl, rfl⟩
  · obtain ⟨-, rfl⟩ := hinv
    exact ⟨nread, nread, le_refl _,
      by simp [reads, prologue, List.filterMap_append, Event.byte?, hr],
      by simp [outputs, prologue, List.filterMap_append, Event.out?, ho]⟩
  · obtain ⟨-, rfl⟩ := hinv
    exact ⟨nread, nread, le_refl _,
      by simp [reads, prologue, List.filterMap_append, Event.byte?, hr],
      by simp [outputs, prologue, List.filterMap_append, Event.out?, ho]⟩
  · obtain ⟨-, k, -, -, rfl⟩ := hinv
    exact ⟨k, k + 1, Nat.le_succ _,
      by simp [reads, prologue, List.filterMap_append, Event.byte?, hr, List.range_succ],
      by simp [outputs, prologue, List.filterMap_append, Event.out?, ho]⟩
  · obtain ⟨-, k, -, rfl⟩ := hinv
    exact ⟨k + 1, k + 1, le_refl _,
      by simp [reads, prologue, List.filterMap_append, Event.byte?, hr, List.range_succ],
      by simp [outputs, prologue, List.filterMap_append, Event.out?, ho, List.range_succ]⟩
  · obtain ⟨-, -, rfl⟩ := hinv
    exact ⟨0, 0, le_refl _, rfl, rfl⟩

theorem line_of_inv {env : Env} {s : State} (hinv : Inv env s) {k : Nat}
    (hk : k < (outputs s.trace).length) :
    (reads s.trace)[k]? = some (inb env k) ∧
      (outputs s.trace)[k]? = some (printf_out (masked (inb env k))) := by
  obtain ⟨m, r, hmr, hr, ho⟩ := obs_of_inv hinv
  rw [ho] at hk ⊢
  rw [hr]
  simp only [List.length_map, List.length_range] at hk
  have hkr : k < r := by omega
  simp [List.getElem?_map, List.getElem?_range, hk, hkr]

/-- C9: take two runs of the program, in any two environments and stopped
anywhere, that both have printed a `k`-th line.  The `k`-th byte read in each
run is the one its environment delivered at the `k`-th read, and when these
two bytes agree on bit 2 the `k`-th lines of the two runs are identical,
whatever the other bits and whatever the bytes read at the other positions:
the line is "released" when that bit is set and "pressed" when it is clear. -/
theorem C9_line_depends_on_own_byte_only (env₁ env₂ : Env) (n₁ n₂ : Nat) (s₁ s₂ : State)
    (h₁ : main env₁ n₁ = some s₁) (h₂ : main env₂ n₂ = some s₂) (k : Nat)
    (hk₁ : k < (outputs s₁.trace).length) (hk₂ : k < (outputs s₂.trace).length)
    (hbit : (inb env₁ k).testBit 2 = (inb env₂ k).testBit 2) :
    (reads s₁.trace)[k]? = some (inb env₁ k) ∧ (reads s₂.trace)[k]? = some (inb env₂ k) ∧
    (outputs s₁.trace)[k]? = (outputs s₂.trace)[k]? ∧
    (outputs s₁.trace)[k]? = some (if (inb env₁ k).testBit 2
      then "COPY button: released\n" else "COPY button: pressed\n") := by
  obtain ⟨hr₁, ho₁⟩ := line_of_inv (inv_main h₁) hk₁
  obtain ⟨hr₂, ho₂⟩ := line_of_inv (inv_main h₂) hk₂
  refine ⟨hr₁, hr₂, ?_, ?_⟩
  · rw [ho₁, ho₂, printf_out_masked, printf_out_masked, hbit]
  · rw [ho₁, printf_out_masked]

theorem C9_line_depends_on_own_byte_only_witness :
    ∃ s₁ s₂, main (constEnv 0 0xFB) 9 = some s₁ ∧
      main ⟨fun _ => 0, fun i => if i = 1 then 0x10 else 0xFF⟩ 13 = some s₂ ∧
      (reads s₁.trace)[1]? = some (inb (constEnv 0 0xFB) 1) ∧
      (reads s₂.trace)[1]? = some (inb ⟨fun _ => 0, fun i => if i = 1 then 0x10 else 0xFF⟩ 1) ∧
      (outputs s₁.trace)[1]? = (outputs s₂.trace)[1]? ∧
      (outputs s₁.trace)[1]? = some (if (inb (constEnv 0 0xFB) 1).testBit 2
        then "COPY button: released\n" else "COPY button: pressed\n") :=
  ⟨_, _, rfl, rfl,
    C9_line_depends_on_own_byte_only (constEnv 0 0xFB)
      ⟨fun _ => 0, fun i => if i = 1 then 0x10 else 0xFF⟩ 9 13 _ _ rfl rfl 1
      (by decide) (by decide) (by decide)⟩

end CopyButton
